import Mathlib

/-!
Verification of the shared-memory lazy singleton of scc-tw/singleton-demo
(process_scope/shared_memory: shm_logger.cpp / shm_logger.hpp) and of the
machine-wide flock guard (os_scope/singleton_daemon.cpp).

The embedding follows the C++ sources:
  * `ShmBlock` is the shared-memory layout (atomic `initialized` flag plus the
    payload storage; storage is modelled by the tag of the `ProcessLogger`
    placement-new-constructed in it, `none` meaning never-constructed bytes,
    and a ghost counter of constructions).
  * `Machine` maps POSIX shm names to regions; `shm_open(name, O_CREAT)`
    open-or-creates, and a fresh region is zero-filled (flag false).
  * OS calls (`shm_open`, `ftruncate`, `mmap`) may fail; their behaviour is an
    explicit oracle `OsBehavior`.  `perror + std::abort()` on a failed call is
    modelled as a terminal `.error` outcome.
  * `init_shm_block` is the body run under `std::call_once`; the constructor
    is a parameter (`some tag` runs `ProcessLogger(tag)` to completion,
    `none` means the constructor fails after the flag transition).  The
    sequencing of the syscalls, the compare-exchange on the flag and the
    placement-new is recorded in an event trace.
  * `get_shm_logger` wraps it in the `std::once_flag` (`onceDone`); a throwing
    body leaves the once-flag unconsumed, as `std::call_once` does.
  * `cleanup_shm_logger` munmaps and nulls `g_block` only.
-/

namespace SingletonDemo

abbrev Tag := String
abbrev Name := String

/-- Source: `static const char* SHM_NAME = "/process_scope_logger";` -/
def SHM_NAME : Name := "/process_scope_logger"

/-- Layout of the shared block (shm_logger.hpp): the atomic `initialized`
flag and the payload storage.  The storage bytes are abstracted by the tag of
the `ProcessLogger` constructed in them (`none` = never constructed), and a
ghost counter counts executions of the placement-new. -/
structure ShmBlock where
  initialized : Bool
  storage : Option Tag
  constructions : Nat
deriving Repr, DecidableEq

/-- Freshly created shm objects are zero-filled: flag false, nothing built. -/
def zeroBlock : ShmBlock := ⟨false, none, 0⟩

/-- Value of `g_block`: which named region the mapping is backed by, and the
mapper-local base address `mmap` returned. -/
structure Pointer where
  name : Name
  addr : Nat
deriving Repr, DecidableEq

/-- Mapper-local static state of shm_logger.cpp: `g_block` and `g_init_flag`. -/
structure MapperState where
  gBlock : Option Pointer
  onceDone : Bool
deriving Repr, DecidableEq

/-- State before any call: `g_block = nullptr`, once-flag unconsumed. -/
def freshMapper : MapperState := ⟨none, false⟩

/-- Kernel state: the table of named shared-memory objects. -/
structure Machine where
  regions : Name → Option ShmBlock

/-- No shm object exists yet. -/
def freshMachine : Machine := ⟨fun _ => none⟩

/-- Update (or create) the region stored under name `n`. -/
def Machine.withRegion (w : Machine) (n : Name) (b : ShmBlock) : Machine :=
  ⟨fun n2 => if n2 = n then some b else w.regions n2⟩

/-- Events emitted by the code, in program order.  `dtorCall` (a placement
destructor call) and `shmUnlinkCall` exist in the vocabulary so that their
absence from every trace is a statement about the code. -/
inductive Event where
  | shmOpenCall
  | ftruncateCall
  | mmapCall
  | flagCas (success : Bool)
  | construct (tag : Tag)
  | dtorCall
  | munmapCall
  | shmUnlinkCall
deriving Repr, DecidableEq

/-- Terminal outcomes of `init_shm_block`: the three `perror + abort` paths of
the source, plus a constructor that fails after the flag transition. -/
inductive Fatal where
  | shmOpenFailed
  | ftruncateFailed
  | mmapFailed
  | ctorThrew
deriving Repr, DecidableEq

/-- Spec name for the failure of the open/create step (§7 error taxonomy),
realised in the code by the `shm_open failed` abort. -/
def RegionUnavailable : Fatal := .shmOpenFailed

/-- Spec name for the failure of the mapping step (§7 error taxonomy),
realised in the code by the `mmap failed` abort. -/
def MappingFailed : Fatal := .mmapFailed

/-- Behaviour of the OS for one run of `init_shm_block`: whether each syscall
succeeds, and the base address a successful `mmap` returns. -/
structure OsBehavior where
  shmOpenOk : Bool
  ftruncateOk : Bool
  mmapOk : Bool
  mmapAddr : Nat
deriving Repr, DecidableEq

/-- All syscalls succeed, `mmap` returning base address `a`. -/
def osOk (a : Nat) : OsBehavior := ⟨true, true, true, a⟩

/-- Result of one run of `init_shm_block`. -/
structure InitResult where
  outcome : Except Fatal Unit
  mapper : MapperState
  world : Machine
  trace : List Event

/-- Embedding of `init_shm_block` (shm_logger.cpp).  In source order:
`shm_open` (abort on failure), `ftruncate` (abort on failure), `mmap` (abort
on failure), assign `g_block`, then `initialized.compare_exchange_strong
(expected=false, true)`; on CAS success the flag is already true when the
placement-new `new (g_block->storage) ProcessLogger(tag)` runs, as the trace
records. -/
def init_shm_block (os : OsBehavior) (ctor : Option Tag)
    (m : MapperState) (w : Machine) : InitResult :=
  if os.shmOpenOk = false then
    ⟨.error .shmOpenFailed, m, w, [.shmOpenCall]⟩
  else
    let blk := (w.regions SHM_NAME).getD zeroBlock
    let w1 := w.withRegion SHM_NAME blk
    if os.ftruncateOk = false then
      ⟨.error .ftruncateFailed, m, w1, [.shmOpenCall, .ftruncateCall]⟩
    else if os.mmapOk = false then
      ⟨.error .mmapFailed, m, w1, [.shmOpenCall, .ftruncateCall, .mmapCall]⟩
    else
      let m1 : MapperState := { m with gBlock := some ⟨SHM_NAME, os.mmapAddr⟩ }
      if blk.initialized = false then
        match ctor with
        | some tag =>
          ⟨.ok (), m1,
            w1.withRegion SHM_NAME ⟨true, some tag, blk.constructions + 1⟩,
            [.shmOpenCall, .ftruncateCall, .mmapCall, .flagCas true,
             .construct tag]⟩
        | none =>
          ⟨.error .ctorThrew, m1,
            w1.withRegion SHM_NAME ⟨true, blk.storage, blk.constructions⟩,
            [.shmOpenCall, .ftruncateCall, .mmapCall, .flagCas true]⟩
      else
        ⟨.ok (), m1, w1, [.shmOpenCall, .ftruncateCall, .mmapCall,
                          .flagCas false]⟩

/-- Result of one call to `get_shm_logger`.  `ref` is the pointer the returned
reference `*reinterpret_cast<ProcessLogger*>(g_block->storage)` is formed
from (`none` both when the call does not return and when `g_block` is null). -/
structure GetResult where
  outcome : Except Fatal Unit
  ref : Option Pointer
  mapper : MapperState
  world : Machine
  trace : List Event

/-- Embedding of `get_shm_logger`: `std::call_once(g_init_flag,
init_shm_block)` then return the reference formed from `g_block->storage`.
If the once-flag is consumed the body is skipped entirely; a body that exits
exceptionally leaves the once-flag unconsumed (C++ `std::call_once`
semantics), and an abort never returns. -/
def get_shm_logger (os : OsBehavior) (ctor : Option Tag)
    (m : MapperState) (w : Machine) : GetResult :=
  if m.onceDone then
    ⟨.ok (), m.gBlock, m, w, []⟩
  else
    let r := init_shm_block os ctor m w
    match r.outcome with
    | .ok () =>
      let m1 : MapperState := { r.mapper with onceDone := true }
      ⟨.ok (), m1.gBlock, m1, r.world, r.trace⟩
    | .error e => ⟨.error e, none, r.mapper, r.world, r.trace⟩

/-- Embedding of `cleanup_shm_logger`: `if (g_block) { munmap(...); g_block =
nullptr; }` — the once-flag is untouched and `shm_unlink` stays commented
out. -/
def cleanup_shm_logger (m : MapperState) : MapperState × List Event :=
  match m.gBlock with
  | some _ => (⟨none, m.onceDone⟩, [.munmapCall])
  | none => (m, [])

/-- Content a returned reference resolves to: the storage bytes of the named
region the pointer is backed by. -/
def derefTag (w : Machine) (p : Pointer) : Option Tag :=
  (w.regions p.name).bind (fun b => b.storage)

/-- Ghost count of placement-new executions in the one named region. -/
def constructionCount (w : Machine) : Nat :=
  ((w.regions SHM_NAME).getD zeroBlock).constructions

/-! ### Whole-system executions (several mappers sharing the kernel table) -/

/-- Several mappers (independently loaded modules or processes), each with its
own copy of the shm_logger.cpp statics, sharing one kernel region table. -/
structure System where
  world : Machine
  mappers : Nat → MapperState

/-- Nothing mapped, no region created. -/
def freshSystem : System := ⟨freshMachine, fun _ => freshMapper⟩

/-- Operations the translation unit exports: `get_shm_logger` and
`cleanup_shm_logger`, each performed by some mapper `i`. -/
inductive Op where
  | get (i : Nat) (os : OsBehavior) (ctor : Option Tag)
  | cleanup (i : Nat)

/-- Run one operation; yields the new system, the reference returned (for
`get`), and the events emitted. -/
def runOp (s : System) : Op → System × Option Pointer × List Event
  | .get i os ctor =>
    let r := get_shm_logger os ctor (s.mappers i) s.world
    (⟨r.world, fun j => if j = i then r.mapper else s.mappers j⟩, r.ref, r.trace)
  | .cleanup i =>
    let p := cleanup_shm_logger (s.mappers i)
    (⟨s.world, fun j => if j = i then p.1 else s.mappers j⟩, none, p.2)

/-- Run a sequence of operations, concatenating the emitted events. -/
def runOps (s : System) : List Op → System × List Event
  | [] => (s, [])
  | op :: rest =>
    let r := runOp s op
    let r2 := runOps r.1 rest
    (r2.1, r.2.2 ++ r2.2)

/-! ### The machine-wide flock guard (os_scope/singleton_daemon.cpp) -/

/-- Outcome of the non-blocking `flock(fd, LOCK_EX | LOCK_NB)`: acquired, or
failed with `EWOULDBLOCK` (another holder owns the lock), or failed with any
other errno. -/
inductive FlockResult where
  | acquired
  | wouldBlock
  | otherError
deriving Repr, DecidableEq

/-- Environment of one run of the guard: whether `open(LOCK_FILE, O_CREAT |
O_RDWR)` succeeds, and what the flock attempt returns. -/
structure GuardEnv where
  openOk : Bool
  flockRes : FlockResult
deriving Repr, DecidableEq

/-- Embedding of `main` of singleton_daemon.cpp, as its exit code: open
failure returns 1; a failed flock (EWOULDBLOCK or any other error) closes the
fd and returns 1; with the lock held the program waits for Enter and returns
0. -/
def guard_main (e : GuardEnv) : Nat :=
  if e.openOk = false then 1
  else
    match e.flockRes with
    | .wouldBlock => 1
    | .otherError => 1
    | .acquired => 0

/-! ### Concurrent calls within one mapper

`std::call_once` makes the guarded section mutually exclusive: of the threads
that call `get_shm_logger`, one runs `init_shm_block` to completion while the
others block and then return, so in the interleaving semantics each thread's
whole call is a single atomic step and a concurrent execution is a scheduling
order of those steps. -/

/-- State of one mapper shared by its threads, plus which threads have issued
their (single) call already. -/
structure ThreadWorld where
  called : Nat → Bool
  mapper : MapperState
  world : Machine

/-- No thread has called yet, nothing mapped, no region created. -/
def freshThreads : ThreadWorld := ⟨fun _ => false, freshMapper, freshMachine⟩

/-- Scheduler step: thread `t` performs its call to `get_shm_logger` the
first time it is scheduled; later appearances of `t` do nothing. -/
def threadStep (a : Nat) (t0 : Tag) (s : ThreadWorld) (t : Nat) : ThreadWorld :=
  if s.called t then s
  else
    let r := get_shm_logger (osOk a) (some t0) s.mapper s.world
    ⟨fun u => if u = t then true else s.called u, r.mapper, r.world⟩

/-- Run an arbitrary arrival order of thread steps. -/
def runSchedule (a : Nat) (t0 : Tag) : List Nat → ThreadWorld → ThreadWorld
  | [], s => s
  | t :: rest, s => runSchedule a t0 rest (threadStep a t0 s t)

/-! ### Sequences of calls by several mappers -/

/-- One `get_shm_logger` call described by a list entry — mapper index,
address its `mmap` returns, tag its constructor would write — yielding the
updated system and the returned reference. -/
def stepGet (s : System) (q : Nat × Nat × Tag) : System × Option Pointer :=
  let r := get_shm_logger (osOk q.2.1) (some q.2.2) (s.mappers q.1) s.world
  (⟨r.world, fun j => if j = q.1 then r.mapper else s.mappers j⟩, r.ref)

/-- Run one such call per list entry, collecting the returned references. -/
def runGets (s : System) :
    List (Nat × Nat × Tag) → System × List (Option Pointer)
  | [] => (s, [])
  | q :: rest =>
    let p := stepGet s q
    let r2 := runGets p.1 rest
    (r2.1, p.2 :: r2.2)

/-- Invariant after the first construction with tag `t0`: the one region
holds the constructed value with construction count 1, and every mapper that
completed a call has `g_block` pointing into that region. -/
def Inv (t0 : Tag) (s : System) : Prop :=
  s.world.regions SHM_NAME = some ⟨true, some t0, 1⟩
  ∧ ∀ i, (s.mappers i).onceDone = true →
      ∃ a, (s.mappers i).gBlock = some ⟨SHM_NAME, a⟩

/-! ### Evaluation lemmas -/

theorem regions_withRegion_self (w : Machine) (n : Name) (b : ShmBlock) :
    (w.withRegion n b).regions n = some b := by
  simp [Machine.withRegion]

/-- Re-storing the block already present under `n` does not change any
lookup. -/
theorem withRegion_lookup_eq (w : Machine) (n : Name) (b : ShmBlock)
    (hb : w.regions n = some b) (n2 : Name) :
    (w.withRegion n b).regions n2 = w.regions n2 := by
  by_cases h : n2 = n
  · subst h; simp [Machine.withRegion, hb]
  · simp [Machine.withRegion, h]

/-- With the once-flag consumed, `get_shm_logger` skips the body entirely. -/
theorem get_done (os : OsBehavior) (c : Option Tag) (m : MapperState)
    (w : Machine) (hm : m.onceDone = true) :
    get_shm_logger os c m w = ⟨.ok (), m.gBlock, m, w, []⟩ := by
  simp [get_shm_logger, hm]

/-- First call in a mapper while the shared flag is still false: the CAS
succeeds, the flag is written, then the constructor runs. -/
theorem get_fresh_construct (a : Nat) (t : Tag) (m : MapperState) (w : Machine)
    (hm : m.onceDone = false)
    (hb : ((w.regions SHM_NAME).getD zeroBlock).initialized = false) :
    get_shm_logger (osOk a) (some t) m w =
      ⟨.ok (), some ⟨SHM_NAME, a⟩, ⟨some ⟨SHM_NAME, a⟩, true⟩,
       (w.withRegion SHM_NAME ((w.regions SHM_NAME).getD zeroBlock)).withRegion
         SHM_NAME
         ⟨true, some t, ((w.regions SHM_NAME).getD zeroBlock).constructions + 1⟩,
       [Event.shmOpenCall, Event.ftruncateCall, Event.mmapCall,
        Event.flagCas true, Event.construct t]⟩ := by
  simp [get_shm_logger, init_shm_block, osOk, hm, hb]

/-- First call in a mapper while the shared flag is already true: the CAS
fails and no construction happens. -/
theorem get_region_inited (a : Nat) (c : Option Tag) (m : MapperState)
    (w : Machine) (hm : m.onceDone = false)
    (hb : ((w.regions SHM_NAME).getD zeroBlock).initialized = true) :
    get_shm_logger (osOk a) c m w =
      ⟨.ok (), some ⟨SHM_NAME, a⟩, ⟨some ⟨SHM_NAME, a⟩, true⟩,
       w.withRegion SHM_NAME ((w.regions SHM_NAME).getD zeroBlock),
       [Event.shmOpenCall, Event.ftruncateCall, Event.mmapCall,
        Event.flagCas false]⟩ := by
  simp [get_shm_logger, init_shm_block, osOk, hm, hb]

/-- A winning CAS followed by a failing constructor: the flag is left true,
the storage untouched, the once-flag unconsumed. -/
theorem get_ctor_fail (a : Nat) (m : MapperState) (w : Machine)
    (hm : m.onceDone = false)
    (hb : ((w.regions SHM_NAME).getD zeroBlock).initialized = false) :
    get_shm_logger (osOk a) none m w =
      ⟨.error .ctorThrew, none, ⟨some ⟨SHM_NAME, a⟩, false⟩,
       (w.withRegion SHM_NAME ((w.regions SHM_NAME).getD zeroBlock)).withRegion
         SHM_NAME
         ⟨true, ((w.regions SHM_NAME).getD zeroBlock).storage,
          ((w.regions SHM_NAME).getD zeroBlock).constructions⟩,
       [Event.shmOpenCall, Event.ftruncateCall, Event.mmapCall,
        Event.flagCas true]⟩ := by
  simp [get_shm_logger, init_shm_block, osOk, hm, hb]

/-- A call that returns has consumed the once-flag. -/
theorem get_ok_onceDone (os : OsBehavior) (c : Option Tag) (m : MapperState)
    (w : Machine) (h : (get_shm_logger os c m w).outcome = .ok ()) :
    (get_shm_logger os c m w).mapper.onceDone = true := by
  by_cases hm : m.onceDone
  · simp [get_shm_logger, hm]
  · simp only [get_shm_logger, hm, if_neg, Bool.false_eq_true, if_false] at h ⊢
    rcases ho : (init_shm_block os c m w).outcome with e | u
    · simp [ho] at h
    · simp [ho]

/-- A call that returns hands back the reference formed from the (updated)
`g_block`. -/
theorem get_ok_ref (os : OsBehavior) (c : Option Tag) (m : MapperState)
    (w : Machine) (h : (get_shm_logger os c m w).outcome = .ok ()) :
    (get_shm_logger os c m w).ref = (get_shm_logger os c m w).mapper.gBlock := by
  by_cases hm : m.onceDone
  · simp [get_shm_logger, hm]
  · simp only [get_shm_logger, hm, Bool.false_eq_true, if_false] at h ⊢
    rcases ho : (init_shm_block os c m w).outcome with e | u
    · simp [ho] at h
    · simp [ho]

/-- `cleanup_shm_logger` always leaves `g_block` null and the once-flag as it
was. -/
theorem cleanup_fst (m : MapperState) :
    (cleanup_shm_logger m).1 = ⟨none, m.onceDone⟩ := by
  rcases m with ⟨g, d⟩
  cases g <;> rfl

/-! ### Claim theorems -/

/-- C7: acquire is idempotent per mapper — after a first `get_shm_logger`
returns, a second call in the same mapper returns the same cached reference,
changes neither the mapper state nor any region, and emits no events at all
(no second `shm_open`, no second `mmap`). -/
theorem c7_acquire_idempotent (os1 os2 : OsBehavior) (c1 c2 : Option Tag)
    (m : MapperState) (w : Machine)
    (h : (get_shm_logger os1 c1 m w).outcome = .ok ()) :
    (get_shm_logger os2 c2 (get_shm_logger os1 c1 m w).mapper
        (get_shm_logger os1 c1 m w).world).ref
      = (get_shm_logger os1 c1 m w).ref
    ∧ (get_shm_logger os2 c2 (get_shm_logger os1 c1 m w).mapper
        (get_shm_logger os1 c1 m w).world).mapper
      = (get_shm_logger os1 c1 m w).mapper
    ∧ (get_shm_logger os2 c2 (get_shm_logger os1 c1 m w).mapper
        (get_shm_logger os1 c1 m w).world).world
      = (get_shm_logger os1 c1 m w).world
    ∧ (get_shm_logger os2 c2 (get_shm_logger os1 c1 m w).mapper
        (get_shm_logger os1 c1 m w).world).trace = [] := by
  have h1 := get_ok_onceDone os1 c1 m w h
  rw [get_done os2 c2 _ _ h1]
  exact ⟨(get_ok_ref os1 c1 m w h).symm, rfl, rfl, rfl⟩

/-- Witness for C7 at a concrete first call. -/
theorem c7_acquire_idempotent_witness :
    (get_shm_logger (osOk 1) (some "shared_memory") freshMapper
      freshMachine).outcome = .ok ()
    ∧ (get_shm_logger (osOk 2) (some "shared_memory")
        (get_shm_logger (osOk 1) (some "shared_memory") freshMapper
          freshMachine).mapper
        (get_shm_logger (osOk 1) (some "shared_memory") freshMapper
          freshMachine).world).trace = [] :=
  ⟨rfl,
   (c7_acquire_idempotent (osOk 1) (osOk 2) (some "shared_memory")
     (some "shared_memory") freshMapper freshMachine rfl).2.2.2⟩

/-- C10: after a successful `get_shm_logger` followed by
`cleanup_shm_logger`, a later `get_shm_logger` still returns (the once-flag
stays consumed, so the body is not re-run — its trace is empty) but the
reference it hands back is formed from the null `g_block`. -/
theorem c10_cleanup_then_get_null (os os2 : OsBehavior) (c c2 : Option Tag)
    (m : MapperState) (w : Machine)
    (h : (get_shm_logger os c m w).outcome = .ok ()) :
    (get_shm_logger os2 c2
        (cleanup_shm_logger (get_shm_logger os c m w).mapper).1
        (get_shm_logger os c m w).world).outcome = .ok ()
    ∧ (get_shm_logger os2 c2
        (cleanup_shm_logger (get_shm_logger os c m w).mapper).1
        (get_shm_logger os c m w).world).ref = none
    ∧ (get_shm_logger os2 c2
        (cleanup_shm_logger (get_shm_logger os c m w).mapper).1
        (get_shm_logger os c m w).world).trace = [] := by
  have h1 := get_ok_onceDone os c m w h
  rw [cleanup_fst, h1]
  rw [get_done os2 c2 ⟨none, true⟩ _ rfl]
  exact ⟨rfl, rfl, rfl⟩

/-- Witness for C10 at a concrete run. -/
theorem c10_cleanup_then_get_null_witness :
    (get_shm_logger (osOk 1) (some "shared_memory") freshMapper
      freshMachine).outcome = .ok ()
    ∧ (get_shm_logger (osOk 2) (some "shared_memory")
        (cleanup_shm_logger
          (get_shm_logger (osOk 1) (some "shared_memory") freshMapper
            freshMachine).mapper).1
        (get_shm_logger (osOk 1) (some "shared_memory") freshMapper
          freshMachine).world).ref = none :=
  ⟨rfl,
   (c10_cleanup_then_get_null (osOk 1) (osOk 2) (some "shared_memory")
     (some "shared_memory") freshMapper freshMachine rfl).2.1⟩

/-- C4: when the open/create step fails the run ends with
`RegionUnavailable` — the state is untouched, the trace shows the single
failed attempt and nothing after it; when open and sizing succeed but the
mapping fails, the run ends with `MappingFailed`, again after a single
attempt, with no construction performed; in both cases `get_shm_logger`
surfaces the same error. -/
theorem c4_acquire_failures (os : OsBehavior) (c : Option Tag)
    (m : MapperState) (w : Machine) :
    (os.shmOpenOk = false →
      init_shm_block os c m w =
        ⟨.error RegionUnavailable, m, w, [Event.shmOpenCall]⟩
      ∧ (m.onceDone = false →
          (get_shm_logger os c m w).outcome = .error RegionUnavailable))
    ∧ (os.shmOpenOk = true → os.ftruncateOk = true → os.mmapOk = false →
      (init_shm_block os c m w).outcome = .error MappingFailed
      ∧ (init_shm_block os c m w).trace =
          [Event.shmOpenCall, Event.ftruncateCall, Event.mmapCall]
      ∧ constructionCount (init_shm_block os c m w).world = constructionCount w
      ∧ (m.onceDone = false →
          (get_shm_logger os c m w).outcome = .error MappingFailed)) := by
  constructor
  · intro h1
    have hi : init_shm_block os c m w =
        ⟨.error RegionUnavailable, m, w, [Event.shmOpenCall]⟩ := by
      simp [init_shm_block, h1, RegionUnavailable]
    refine ⟨hi, fun hm => ?_⟩
    simp [get_shm_logger, hm, hi, RegionUnavailable]
  · intro h1 h2 h3
    have hi : init_shm_block os c m w =
        ⟨.error MappingFailed, m,
         w.withRegion SHM_NAME ((w.regions SHM_NAME).getD zeroBlock),
         [Event.shmOpenCall, Event.ftruncateCall, Event.mmapCall]⟩ := by
      simp [init_shm_block, h1, h2, h3, MappingFailed]
    refine ⟨by rw [hi], by rw [hi], ?_, fun hm => ?_⟩
    · rw [hi]
      simp [constructionCount, regions_withRegion_self]
    · simp [get_shm_logger, hm, hi, MappingFailed]

/-- Witness for C4 at concrete failing oracles. -/
theorem c4_acquire_failures_witness :
    init_shm_block ⟨false, true, true, 0⟩ (some "shared_memory") freshMapper
        freshMachine =
      ⟨.error RegionUnavailable, freshMapper, freshMachine,
       [Event.shmOpenCall]⟩
    ∧ (init_shm_block ⟨true, true, false, 0⟩ (some "shared_memory")
        freshMapper freshMachine).outcome = .error MappingFailed :=
  ⟨((c4_acquire_failures ⟨false, true, true, 0⟩ (some "shared_memory")
      freshMapper freshMachine).1 rfl).1,
   ((c4_acquire_failures ⟨true, true, false, 0⟩ (some "shared_memory")
      freshMapper freshMachine).2 rfl rfl rfl).1⟩

/-- Classification of every trace `get_shm_logger` can emit; in particular a
construction event only ever appears as the last event, directly after the
winning flag write. -/
theorem get_trace_shapes (os : OsBehavior) (c : Option Tag) (m : MapperState)
    (w : Machine) :
    (get_shm_logger os c m w).trace = []
    ∨ (get_shm_logger os c m w).trace = [Event.shmOpenCall]
    ∨ (get_shm_logger os c m w).trace =
        [Event.shmOpenCall, Event.ftruncateCall]
    ∨ (get_shm_logger os c m w).trace =
        [Event.shmOpenCall, Event.ftruncateCall, Event.mmapCall]
    ∨ (get_shm_logger os c m w).trace =
        [Event.shmOpenCall, Event.ftruncateCall, Event.mmapCall,
         Event.flagCas false]
    ∨ (get_shm_logger os c m w).trace =
        [Event.shmOpenCall, Event.ftruncateCall, Event.mmapCall,
         Event.flagCas true]
    ∨ ∃ t, (get_shm_logger os c m w).trace =
        [Event.shmOpenCall, Event.ftruncateCall, Event.mmapCall,
         Event.flagCas true, Event.construct t] := by
  by_cases hm : m.onceDone
  · simp [get_shm_logger, hm]
  · rcases os with ⟨o1, o2, o3, a⟩
    by_cases hb : ((w.regions SHM_NAME).getD zeroBlock).initialized
    all_goals cases o1 <;> cases o2 <;> cases o3 <;> cases c <;>
      simp [get_shm_logger, init_shm_block, hm, hb]

/-- C2 counterexample: at a concrete fresh first call the emitted trace puts
the winning flag write (index 3) strictly before the construction (index 4) —
the flag write is not sequenced after construction completes. -/
theorem c2_counterexample :
    (get_shm_logger (osOk 4096) (some "shared_memory") freshMapper
      freshMachine).trace =
      [Event.shmOpenCall, Event.ftruncateCall, Event.mmapCall,
       Event.flagCas true, Event.construct "shared_memory"]
    ∧ List.indexOf (Event.flagCas true)
        [Event.shmOpenCall, Event.ftruncateCall, Event.mmapCall,
         Event.flagCas true, Event.construct "shared_memory"]
      < List.indexOf (Event.construct "shared_memory")
        [Event.shmOpenCall, Event.ftruncateCall, Event.mmapCall,
         Event.flagCas true, Event.construct "shared_memory"] :=
  ⟨rfl, by decide⟩

/-- C2 amended: whenever `get_shm_logger` runs the constructor, the write
that sets the flag to true occurs strictly before the construction in the
emitted trace, so observing the flag true does not by itself guarantee a
fully constructed payload. -/
theorem c2_flag_write_precedes_construction (os : OsBehavior) (c : Option Tag)
    (m : MapperState) (w : Machine) (tag : Tag)
    (h : Event.construct tag ∈ (get_shm_logger os c m w).trace) :
    ∃ i j, (get_shm_logger os c m w).trace.get? i = some (Event.flagCas true)
      ∧ (get_shm_logger os c m w).trace.get? j = some (Event.construct tag)
      ∧ i < j := by
  rcases get_trace_shapes os c m w with h1 | h1 | h1 | h1 | h1 | h1 | ⟨t, h1⟩ <;>
    rw [h1] at h ⊢ <;> simp at h
  obtain rfl : tag = t := by tauto
  exact ⟨3, 4, rfl, rfl, by decide⟩

/-- Witness for the amended C2 at a concrete fresh first call. -/
theorem c2_flag_write_precedes_construction_witness :
    Event.construct "shared_memory" ∈
      (get_shm_logger (osOk 4096) (some "shared_memory") freshMapper
        freshMachine).trace
    ∧ ∃ i j,
        (get_shm_logger (osOk 4096) (some "shared_memory") freshMapper
          freshMachine).trace.get? i = some (Event.flagCas true)
        ∧ (get_shm_logger (osOk 4096) (some "shared_memory") freshMapper
            freshMachine).trace.get? j =
            some (Event.construct "shared_memory")
        ∧ i < j :=
  ⟨by decide,
   c2_flag_write_precedes_construction (osOk 4096) (some "shared_memory")
     freshMapper freshMachine "shared_memory" (by decide)⟩

/-- C3: a constructor failing after the winning flag transition leaves the
flag true and the storage bytes untouched; every later caller then finds the
flag already set, performs no construction, never retries the constructor,
and is handed a reference resolving to the never-constructed bytes. -/
theorem c3_ctor_failure_poisons (a : Nat) (m : MapperState) (w : Machine)
    (hm : m.onceDone = false)
    (hb : ((w.regions SHM_NAME).getD zeroBlock).initialized = false) :
    (get_shm_logger (osOk a) none m w).outcome = .error Fatal.ctorThrew
    ∧ (((get_shm_logger (osOk a) none m w).world.regions SHM_NAME).getD
        zeroBlock).initialized = true
    ∧ (((get_shm_logger (osOk a) none m w).world.regions SHM_NAME).getD
        zeroBlock).storage = ((w.regions SHM_NAME).getD zeroBlock).storage
    ∧ constructionCount (get_shm_logger (osOk a) none m w).world
        = constructionCount w
    ∧ ∀ (a2 : Nat) (c2 : Option Tag) (m2 : MapperState),
        m2.onceDone = false →
        (get_shm_logger (osOk a2) c2 m2
            (get_shm_logger (osOk a) none m w).world).outcome = .ok ()
        ∧ (get_shm_logger (osOk a2) c2 m2
            (get_shm_logger (osOk a) none m w).world).trace =
            [Event.shmOpenCall, Event.ftruncateCall, Event.mmapCall,
             Event.flagCas false]
        ∧ (get_shm_logger (osOk a2) c2 m2
            (get_shm_logger (osOk a) none m w).world).ref =
            some ⟨SHM_NAME, a2⟩
        ∧ derefTag
            (get_shm_logger (osOk a2) c2 m2
              (get_shm_logger (osOk a) none m w).world).world
            ⟨SHM_NAME, a2⟩ = ((w.regions SHM_NAME).getD zeroBlock).storage := by
  rw [get_ctor_fail a m w hm hb]
  have hl : ∀ n2,
      (((w.withRegion SHM_NAME ((w.regions SHM_NAME).getD zeroBlock)).withRegion
          SHM_NAME
          ⟨true, ((w.regions SHM_NAME).getD zeroBlock).storage,
           ((w.regions SHM_NAME).getD zeroBlock).constructions⟩).regions n2)
        = if n2 = SHM_NAME then
            some ⟨true, ((w.regions SHM_NAME).getD zeroBlock).storage,
                  ((w.regions SHM_NAME).getD zeroBlock).constructions⟩
          else w.regions n2 := by
    intro n2
    by_cases h2 : n2 = SHM_NAME <;> simp [Machine.withRegion, h2]
  refine ⟨rfl, by simp [hl], by simp [hl], by simp [constructionCount, hl],
    fun a2 c2 m2 hm2 => ?_⟩
  have hb2 : ((((w.withRegion SHM_NAME
        ((w.regions SHM_NAME).getD zeroBlock)).withRegion SHM_NAME
        ⟨true, ((w.regions SHM_NAME).getD zeroBlock).storage,
         ((w.regions SHM_NAME).getD zeroBlock).constructions⟩).regions
        SHM_NAME).getD zeroBlock).initialized = true := by
    simp [hl]
  rw [get_region_inited a2 c2 m2 _ hm2 hb2]
  refine ⟨rfl, rfl, rfl, ?_⟩
  simp [derefTag, Machine.withRegion, hl]

/-- Witness for C3: constructor failure on a fresh region, then a second
fresh mapper. -/
theorem c3_ctor_failure_poisons_witness :
    (get_shm_logger (osOk 1) none freshMapper freshMachine).outcome =
      .error Fatal.ctorThrew
    ∧ (get_shm_logger (osOk 2) (some "retry") freshMapper
        (get_shm_logger (osOk 1) none freshMapper freshMachine).world).trace =
        [Event.shmOpenCall, Event.ftruncateCall, Event.mmapCall,
         Event.flagCas false]
    ∧ derefTag
        (get_shm_logger (osOk 2) (some "retry") freshMapper
          (get_shm_logger (osOk 1) none freshMapper freshMachine).world).world
        ⟨SHM_NAME, 2⟩ = none :=
  ⟨(c3_ctor_failure_poisons 1 freshMapper freshMachine rfl rfl).1,
   ((c3_ctor_failure_poisons 1 freshMapper freshMachine rfl rfl).2.2.2.2
     2 (some "retry") freshMapper rfl).2.1,
   ((c3_ctor_failure_poisons 1 freshMapper freshMachine rfl rfl).2.2.2.2
     2 (some "retry") freshMapper rfl).2.2.2⟩

/-- C5: a `get_shm_logger` call made while the shared flag is already true
performs no construction (its constructor never runs — the trace ends with
the failed CAS), changes no region byte, and returns a reference resolving to
the storage the first constructor produced. -/
theorem c5_no_reconstruction (a : Nat) (c : Option Tag) (m : MapperState)
    (w : Machine) (blk : ShmBlock) (hw : w.regions SHM_NAME = some blk)
    (hb : blk.initialized = true) (hm : m.onceDone = false) :
    (get_shm_logger (osOk a) c m w).outcome = .ok ()
    ∧ (get_shm_logger (osOk a) c m w).trace =
        [Event.shmOpenCall, Event.ftruncateCall, Event.mmapCall,
         Event.flagCas false]
    ∧ (get_shm_logger (osOk a) c m w).ref = some ⟨SHM_NAME, a⟩
    ∧ (∀ n, (get_shm_logger (osOk a) c m w).world.regions n = w.regions n)
    ∧ derefTag (get_shm_logger (osOk a) c m w).world ⟨SHM_NAME, a⟩
        = blk.storage := by
  have hb2 : ((w.regions SHM_NAME).getD zeroBlock).initialized = true := by
    rw [hw]; exact hb
  rw [get_region_inited a c m w hm hb2]
  have hl : ∀ n2,
      (w.withRegion SHM_NAME ((w.regions SHM_NAME).getD zeroBlock)).regions n2
        = w.regions n2 := by
    intro n2
    exact withRegion_lookup_eq w SHM_NAME _ (by rw [hw]; rfl) n2
  exact ⟨rfl, rfl, rfl, hl, by simp [derefTag, regions_withRegion_self, hw]⟩

/-- Witness for C5: mapper A constructs with tag first; mapper B calls with a
constructor that would write tag second, which never runs, and B observes
first. -/
theorem c5_no_reconstruction_witness :
    (get_shm_logger (osOk 1) (some "first") freshMapper
        freshMachine).world.regions SHM_NAME = some ⟨true, some "first", 1⟩
    ∧ (get_shm_logger (osOk 2) (some "second") freshMapper
        (get_shm_logger (osOk 1) (some "first") freshMapper
          freshMachine).world).trace =
        [Event.shmOpenCall, Event.ftruncateCall, Event.mmapCall,
         Event.flagCas false]
    ∧ derefTag
        (get_shm_logger (osOk 2) (some "second") freshMapper
          (get_shm_logger (osOk 1) (some "first") freshMapper
            freshMachine).world).world
        ⟨SHM_NAME, 2⟩ = some "first" :=
  ⟨rfl,
   (c5_no_reconstruction 2 (some "second") freshMapper _
     ⟨true, some "first", 1⟩ rfl rfl rfl).2.1,
   (c5_no_reconstruction 2 (some "second") freshMapper _
     ⟨true, some "first", 1⟩ rfl rfl rfl).2.2.2.2⟩

/-- No single operation ever emits a destructor call or an unlink. -/
theorem runOp_no_dtor_unlink (s : System) (op : Op) :
    (runOp s op).2.2.count Event.dtorCall = 0
    ∧ (runOp s op).2.2.count Event.shmUnlinkCall = 0 := by
  rcases op with ⟨i, os, c⟩ | i
  · have h : (runOp s (Op.get i os c)).2.2 =
        (get_shm_logger os c (s.mappers i) s.world).trace := rfl
    rw [h]
    rcases get_trace_shapes os c (s.mappers i) s.world with
      h1 | h1 | h1 | h1 | h1 | h1 | ⟨t, h1⟩ <;> rw [h1] <;>
      simp [List.count_cons, List.count_nil]
  · have h : (runOp s (Op.cleanup i)).2.2 =
        (cleanup_shm_logger (s.mappers i)).2 := rfl
    rw [h]
    rcases hg : (s.mappers i).gBlock with _ | p <;>
      simp [cleanup_shm_logger, hg, List.count_cons, List.count_nil]

/-- C9: in every modelled execution (any interleaving of `get_shm_logger` and
`cleanup_shm_logger` calls by any mappers from any starting state) the
payload destructor is never invoked and the named region is never unlinked;
`cleanup_shm_logger` leaves every region in place and its own effect is at
most the single `munmap`. -/
theorem c9_no_destroy_no_unlink (s : System) (ops : List Op) (i : Nat)
    (m : MapperState) :
    (runOps s ops).2.count Event.dtorCall = 0
    ∧ (runOps s ops).2.count Event.shmUnlinkCall = 0
    ∧ (runOp s (Op.cleanup i)).1.world = s.world
    ∧ (cleanup_shm_logger m).2 =
        (if m.gBlock.isSome then [Event.munmapCall] else []) := by
  refine ⟨?_, ?_, rfl, ?_⟩
  · induction ops generalizing s with
    | nil => rfl
    | cons op rest ih =>
      have h : (runOps s (op :: rest)).2 =
          (runOp s op).2.2 ++ (runOps (runOp s op).1 rest).2 := rfl
      rw [h, List.count_append, (runOp_no_dtor_unlink s op).1, ih]
  · induction ops generalizing s with
    | nil => rfl
    | cons op rest ih =>
      have h : (runOps s (op :: rest)).2 =
          (runOp s op).2.2 ++ (runOps (runOp s op).1 rest).2 := rfl
      rw [h, List.count_append, (runOp_no_dtor_unlink s op).2, ih]
  · rcases m with ⟨g, d⟩
    cases g <;> rfl

/-- C8: the guard process exits 0 exactly when it acquires the exclusive
lock, and exits 1 both when the lock is already held and on any I/O error
opening the lock token. -/
theorem c8_guard_exit_codes (e : GuardEnv) :
    guard_main e =
      if e.openOk = true ∧ e.flockRes = FlockResult.acquired then 0 else 1 := by
  rcases e with ⟨o, f⟩
  cases o <;> cases f <;> rfl

/-- A thread step in a mapper whose once-flag is consumed changes nothing. -/
theorem threadStep_preserve (a : Nat) (t0 : Tag) (s : ThreadWorld) (t : Nat)
    (h : s.mapper.onceDone = true) :
    (threadStep a t0 s t).mapper = s.mapper
    ∧ (threadStep a t0 s t).world = s.world := by
  by_cases hc : s.called t
  · simp [threadStep, hc]
  · simp [threadStep, hc, get_done _ _ _ _ h]

/-- A whole schedule in a mapper whose once-flag is consumed changes
nothing. -/
theorem runSchedule_preserve (a : Nat) (t0 : Tag) (sched : List Nat)
    (s : ThreadWorld) (h : s.mapper.onceDone = true) :
    (runSchedule a t0 sched s).mapper = s.mapper
    ∧ (runSchedule a t0 sched s).world = s.world := by
  induction sched generalizing s with
  | nil => exact ⟨rfl, rfl⟩
  | cons t rest ih =>
    have hp := threadStep_preserve a t0 s t h
    have h2 := ih (threadStep a t0 s t) (by rw [hp.1]; exact h)
    constructor
    · show (runSchedule a t0 rest (threadStep a t0 s t)).mapper = s.mapper
      rw [h2.1, hp.1]
    · show (runSchedule a t0 rest (threadStep a t0 s t)).world = s.world
      rw [h2.2, hp.2]

/-- C1: for any number of threads of one mapper each calling
`get_shm_logger` on the fresh region, under any arrival order, exactly one
construction of the payload occurs. -/
theorem c1_exactly_one_construction (a : Nat) (t0 : Tag) (sched : List Nat)
    (h : sched ≠ []) :
    constructionCount (runSchedule a t0 sched freshThreads).world = 1 := by
  rcases sched with _ | ⟨t, rest⟩
  · exact absurd rfl h
  · have hg := get_fresh_construct a t0 freshMapper freshMachine rfl rfl
    have hstep :
        (threadStep a t0 freshThreads t).mapper = ⟨some ⟨SHM_NAME, a⟩, true⟩
        ∧ constructionCount (threadStep a t0 freshThreads t).world = 1 := by
      constructor
      · show (get_shm_logger (osOk a) (some t0) freshMapper
            freshMachine).mapper = ⟨some ⟨SHM_NAME, a⟩, true⟩
        rw [hg]
      · show constructionCount (get_shm_logger (osOk a) (some t0) freshMapper
            freshMachine).world = 1
        rw [hg]
        simp [constructionCount, Machine.withRegion, freshMachine, zeroBlock]
    have hp := runSchedule_preserve a t0 rest (threadStep a t0 freshThreads t)
        (by rw [hstep.1])
    show constructionCount
        (runSchedule a t0 rest (threadStep a t0 freshThreads t)).world = 1
    rw [hp.2]
    exact hstep.2

/-- Witness for C1: three threads arriving in a concrete order. -/
theorem c1_exactly_one_construction_witness :
    ([0, 1, 2, 1] : List Nat) ≠ []
    ∧ constructionCount
        (runSchedule 7 "shared_memory" [0, 1, 2, 1] freshThreads).world = 1 :=
  ⟨by decide,
   c1_exactly_one_construction 7 "shared_memory" [0, 1, 2, 1] (by decide)⟩

/-- A call in a system satisfying the post-construction invariant preserves
it, returns a reference into the one region, leaves that reference cached in
the calling mapper, and does not disturb any mapper that had completed. -/
theorem stepGet_inv (t0 : Tag) (s : System) (q : Nat × Nat × Tag)
    (h : Inv t0 s) :
    Inv t0 (stepGet s q).1
    ∧ (∃ a, (stepGet s q).2 = some ⟨SHM_NAME, a⟩)
    ∧ (stepGet s q).2 = ((stepGet s q).1.mappers q.1).gBlock
    ∧ ((stepGet s q).1.mappers q.1).onceDone = true
    ∧ ∀ j, (s.mappers j).onceDone = true →
        (stepGet s q).1.mappers j = s.mappers j := by
  obtain ⟨hw, hmap⟩ := h
  by_cases hm : (s.mappers q.1).onceDone
  · have hd := get_done (osOk q.2.1) (some q.2.2) (s.mappers q.1) s.world hm
    obtain ⟨a, ha⟩ := hmap q.1 hm
    have hstep : stepGet s q =
        (⟨s.world,
          fun j => if j = q.1 then s.mappers q.1 else s.mappers j⟩,
         (s.mappers q.1).gBlock) := by
      simp [stepGet, hd]
    rw [hstep]
    refine ⟨⟨hw, ?_⟩, ⟨a, ha⟩, ?_, ?_, ?_⟩
    · intro i hi
      by_cases hiq : i = q.1
      · subst hiq
        simp only [if_pos rfl] at hi ⊢
        exact hmap _ hi
      · simp only [if_neg hiq] at hi ⊢
        exact hmap i hi
    · simp
    · simp [hm]
    · intro j hj
      by_cases hjq : j = q.1 <;> simp [hjq]
  · have hm2 : (s.mappers q.1).onceDone = false := by
      simpa using hm
    have hb : ((s.world.regions SHM_NAME).getD zeroBlock).initialized = true := by
      rw [hw]; rfl
    have hri := get_region_inited q.2.1 (some q.2.2) (s.mappers q.1) s.world
      hm2 hb
    have hstep : stepGet s q =
        (⟨s.world.withRegion SHM_NAME ((s.world.regions SHM_NAME).getD zeroBlock),
          fun j => if j = q.1 then ⟨some ⟨SHM_NAME, q.2.1⟩, true⟩
                   else s.mappers j⟩,
         some ⟨SHM_NAME, q.2.1⟩) := by
      simp [stepGet, hri]
    rw [hstep]
    have hwr : (s.world.withRegion SHM_NAME
        ((s.world.regions SHM_NAME).getD zeroBlock)).regions SHM_NAME =
        some ⟨true, some t0, 1⟩ := by
      rw [regions_withRegion_self, hw]; rfl
    refine ⟨⟨hwr, ?_⟩, ⟨q.2.1, rfl⟩, ?_, ?_, ?_⟩
    · intro i hi
      by_cases hiq : i = q.1
      · subst hiq; exact ⟨q.2.1, by simp⟩
      · simp only [if_neg hiq] at hi ⊢
        exact hmap i hi
    · simp
    · simp
    · intro j hj
      have hjq : j ≠ q.1 := by
        intro he; rw [he] at hj; rw [hj] at hm2; cases hm2
      simp [hjq]

/-- Running any list of calls from a system satisfying the invariant keeps
it, never disturbs completed mappers, and every returned reference points
into the one region and equals the final cached `g_block` of its mapper. -/
theorem runGets_inv (t0 : Tag) (ops : List (Nat × Nat × Tag)) (s : System)
    (h : Inv t0 s) :
    Inv t0 (runGets s ops).1
    ∧ (∀ j, (s.mappers j).onceDone = true →
        (runGets s ops).1.mappers j = s.mappers j)
    ∧ ∀ pr ∈ ops.zip (runGets s ops).2,
        (∃ a, pr.2 = some ⟨SHM_NAME, a⟩)
        ∧ pr.2 = ((runGets s ops).1.mappers pr.1.1).gBlock := by
  induction ops generalizing s with
  | nil =>
    exact ⟨h, fun j _ => rfl, by simp [runGets]⟩
  | cons q rest ih =>
    obtain ⟨h1, h2, h3, h4, h5⟩ := stepGet_inv t0 s q h
    obtain ⟨ih1, ih2, ih3⟩ := ih (stepGet s q).1 h1
    have hr : runGets s (q :: rest)
        = ((runGets (stepGet s q).1 rest).1,
           (stepGet s q).2 :: (runGets (stepGet s q).1 rest).2) := rfl
    rw [hr]
    refine ⟨ih1, ?_, ?_⟩
    · intro j hj
      rw [ih2 j (by rw [h5 j hj]; exact hj), h5 j hj]
    · intro pr hpr
      rw [List.zip_cons_cons] at hpr
      rcases List.mem_cons.1 hpr with hpr | hpr
      · subst hpr
        exact ⟨h2, by rw [ih2 q.1 h4]; exact h3⟩
      · exact ih3 pr hpr

/-- The first call on a fresh system constructs with its tag and establishes
the invariant, caching the returned reference in the calling mapper. -/
theorem stepGet_fresh (q : Nat × Nat × Tag) :
    Inv q.2.2 (stepGet freshSystem q).1
    ∧ (stepGet freshSystem q).2 = some ⟨SHM_NAME, q.2.1⟩
    ∧ (stepGet freshSystem q).1.mappers q.1 =
        ⟨some ⟨SHM_NAME, q.2.1⟩, true⟩ := by
  have hg := get_fresh_construct q.2.1 q.2.2 freshMapper freshMachine rfl rfl
  have hstep : stepGet freshSystem q =
      (⟨(freshMachine.withRegion SHM_NAME
          ((freshMachine.regions SHM_NAME).getD zeroBlock)).withRegion SHM_NAME
          ⟨true, some q.2.2,
           ((freshMachine.regions SHM_NAME).getD zeroBlock).constructions + 1⟩,
        fun j => if j = q.1 then ⟨some ⟨SHM_NAME, q.2.1⟩, true⟩
                 else freshMapper⟩,
       some ⟨SHM_NAME, q.2.1⟩) := by
    simp [stepGet, freshSystem, hg]
  rw [hstep]
  refine ⟨⟨?_, ?_⟩, rfl, by simp⟩
  · rw [regions_withRegion_self]; rfl
  · intro i hi
    by_cases hiq : i = q.1
    · subst hiq; exact ⟨q.2.1, by simp⟩
    · simp only [if_neg hiq] at hi
      cases hi

/-- C6: when a nonempty family of calls on handles backed by the one named
region runs — first call described by `q`, any later calls by `rest`, by any
mappers — exactly one construction occurs in total, every returned reference
resolves to the single shared region and to the bytes the first constructor
wrote, each reference equals its mapper's cached `g_block`, and two calls by
the same mapper return the same reference. -/
theorem c6_same_memory_one_construction (q : Nat × Nat × Tag)
    (rest : List (Nat × Nat × Tag)) :
    constructionCount (runGets freshSystem (q :: rest)).1.world = 1
    ∧ (∀ pr ∈ (q :: rest).zip (runGets freshSystem (q :: rest)).2,
        ∃ p, pr.2 = some p ∧ p.name = SHM_NAME
          ∧ derefTag (runGets freshSystem (q :: rest)).1.world p = some q.2.2
          ∧ pr.2 = ((runGets freshSystem (q :: rest)).1.mappers pr.1.1).gBlock)
    ∧ ∀ pr1 ∈ (q :: rest).zip (runGets freshSystem (q :: rest)).2,
        ∀ pr2 ∈ (q :: rest).zip (runGets freshSystem (q :: rest)).2,
        pr1.1.1 = pr2.1.1 → pr1.2 = pr2.2 := by
  obtain ⟨hI, hr0, hm0⟩ := stepGet_fresh q
  obtain ⟨ih1, ih2, ih3⟩ := runGets_inv q.2.2 rest (stepGet freshSystem q).1 hI
  have hr : runGets freshSystem (q :: rest)
      = ((runGets (stepGet freshSystem q).1 rest).1,
         (stepGet freshSystem q).2 ::
           (runGets (stepGet freshSystem q).1 rest).2) := rfl
  rw [hr]
  have hmain : ∀ pr ∈ (q :: rest).zip
      ((stepGet freshSystem q).2 ::
        (runGets (stepGet freshSystem q).1 rest).2),
      ∃ p, pr.2 = some p ∧ p.name = SHM_NAME
        ∧ derefTag (runGets (stepGet freshSystem q).1 rest).1.world p
            = some q.2.2
        ∧ pr.2 = ((runGets (stepGet freshSystem q).1 rest).1.mappers
            pr.1.1).gBlock := by
    intro pr hpr
    rw [List.zip_cons_cons] at hpr
    rcases List.mem_cons.1 hpr with hpr | hpr
    · subst hpr
      refine ⟨⟨SHM_NAME, q.2.1⟩, hr0, rfl, ?_, ?_⟩
      · simp [derefTag, ih1.1]
      · rw [ih2 q.1 (by rw [hm0])]
        rw [hm0, hr0]
    · obtain ⟨⟨a, ha⟩, hgb⟩ := ih3 pr hpr
      refine ⟨⟨SHM_NAME, a⟩, ha, rfl, ?_, hgb⟩
      simp [derefTag, ih1.1]
  refine ⟨by simp [constructionCount, ih1.1], hmain, ?_⟩
  intro pr1 h1 pr2 h2 he
  obtain ⟨p1, e1, _, _, g1⟩ := hmain pr1 h1
  obtain ⟨p2, e2, _, _, g2⟩ := hmain pr2 h2
  rw [g1, g2, he]

/-- Witness for C6: two mappers, mapped at different local addresses, both
resolve to the one region holding the first tag, with one construction in
total. -/
theorem c6_same_memory_one_construction_witness :
    (runGets freshSystem
        [(0, 10, "shared_memory"), (1, 20, "shared_memory")]).2 =
      [some ⟨SHM_NAME, 10⟩, some ⟨SHM_NAME, 20⟩]
    ∧ constructionCount
        (runGets freshSystem
          [(0, 10, "shared_memory"), (1, 20, "shared_memory")]).1.world = 1
    ∧ ∃ p, (some ⟨SHM_NAME, 20⟩ : Option Pointer) = some p
        ∧ p.name = SHM_NAME
        ∧ derefTag (runGets freshSystem
            [(0, 10, "shared_memory"), (1, 20, "shared_memory")]).1.world p
          = some "shared_memory"
        ∧ (some ⟨SHM_NAME, 20⟩ : Option Pointer) =
            ((runGets freshSystem
              [(0, 10, "shared_memory"),
               (1, 20, "shared_memory")]).1.mappers 1).gBlock :=
  ⟨rfl,
   (c6_same_memory_one_construction (0, 10, "shared_memory")
     [(1, 20, "shared_memory")]).1,
   (c6_same_memory_one_construction (0, 10, "shared_memory")
     [(1, 20, "shared_memory")]).2.1
     ((1, 20, "shared_memory"), some ⟨SHM_NAME, 20⟩) (by decide)⟩

end SingletonDemo
